import Mathlib

/-!
Verification of the BNPL simulator core (apps/payments) against its
natural-language specification.  The Python source is embedded shallowly:
Float and `Decimal` arithmetic of the source is modelled over `ℚ` with its
round-half-up-to-cents applied exactly where the source applies it, Django
rows become explicit records, and the post-save signal pipeline becomes a
pure state-transformation function.
-/

namespace BNPL

/-- Round-half-away-from-zero to an integer, the tie behaviour of Python
`decimal.ROUND_HALF_UP`. -/
def halfUp (q : ℚ) : ℤ :=
  if 0 ≤ q then ⌊q + 1/2⌋ else -⌊-q + 1/2⌋

/-- Quantization to two decimal places with ROUND_HALF_UP, as
`Decimal.quantize` is called throughout utils.py: ties away from zero. -/
def round2 (q : ℚ) : ℚ :=
  (halfUp (q * 100) : ℚ) / 100

/-- A rational that is a whole number of cents (an exact two-decimal value). -/
def isCents (q : ℚ) : Prop :=
  ∃ z : ℤ, q = (z : ℚ) / 100

/-- Cadence enumeration `tenor_type` of the source
(`TENOR_TYPE_CHOICES` in models.py). -/
inductive Tenor
  | month
  | week
  | day
deriving DecidableEq, Repr

/-- Periods per year, utils.py periods_mapping: month to 12, week to 52, day
to 360. -/
def periods_mapping : Tenor → ℚ
  | .month => 12
  | .week => 52
  | .day => 360

/-- The distinct `ValidationError` exits of utils.py, one constructor per
`raise` site reachable in `calculate_pmt` / `calculate_amortization`. -/
inductive AmortError
  | invalidPrincipal
  | invalidRate
  | invalidPeriods
  | unableToCalculate
  | invalidPayment
  | invalidPrincipalComponent (period : ℕ)
deriving DecidableEq, Repr

/-- Model of `calculate_pmt` (utils.py lines 17-66): validate the inputs, then the
zero-rate special case, otherwise the level-payment PMT formula
`pmt = principal * rate * (1+rate)^n / ((1+rate)^n - 1)` (what
`npf.pmt(rate, n, -principal)` computes), rounded to cents. -/
def calculate_pmt (principal annual_rate : ℚ) (periods : ℕ) (tenor_type : Tenor) :
    Except AmortError ℚ :=
  if principal ≤ 0 then .error .invalidPrincipal
  else if annual_rate < 0 ∨ 100 < annual_rate then .error .invalidRate
  else if periods = 0 then .error .invalidPeriods
  else if annual_rate = 0 then .ok (round2 (principal / periods))
  else
    let rate := annual_rate / 100 / periods_mapping tenor_type
    let pmt := principal * rate * (1 + rate) ^ periods / ((1 + rate) ^ periods - 1)
    if pmt = 0 then .error .unableToCalculate
    else
      let result := round2 pmt
      if result ≤ 0 then .error .invalidPayment
      else .ok result

/-- One row of the schedule computed by the loop body of
`calculate_amortization` (utils.py lines 106-133): the
`(total_pmt, principal_component, interest)` triple after rounding and after
the negative-interest clamp, where `final` tells whether this is the last
period (`period == periods`). -/
def periodRow (rate pmt remaining : ℚ) (final : Bool) : ℚ × ℚ × ℚ :=
  let interest_amount := remaining * rate
  let principal_component_float := if final then remaining else pmt - interest_amount
  let total_pmt_float := if final then remaining + interest_amount else pmt
  (round2 total_pmt_float,
   round2 principal_component_float,
   if round2 interest_amount < 0 then 0 else round2 interest_amount)

/-- The balance carried into the next period (utils.py lines 134-139):
subtract the rounded principal component, and reset a balance that fell
below `-0.01` to `0` on every period except the last (`k` counts the
periods that remain after the current one). -/
def nextRemaining (remaining pc : ℚ) (k : ℕ) : ℚ :=
  if remaining - pc < -(1/100) ∧ 0 < k then 0 else remaining - pc

/-- The amortization loop of utils.py lines 106-143, structurally recursive
on the number `k` of periods still to emit; `total` is only used to report
the 1-based period number in the error.  A rounded principal component
`≤ 0` aborts with the per-period invalid-principal-component error of the
source. -/
def amortGo (rate pmt : ℚ) (total : ℕ) : ℕ → ℚ → Except AmortError (List (ℚ × ℚ × ℚ))
  | 0, _ => .ok []
  | k + 1, remaining =>
    let row := periodRow rate pmt remaining (k = 0)
    if row.2.1 ≤ 0 then .error (.invalidPrincipalComponent (total - k))
    else
      match amortGo rate pmt total k (nextRemaining remaining row.2.1 k) with
      | .error e => .error e
      | .ok rest => .ok (row :: rest)

/-- Model of `calculate_amortization` (utils.py lines 68-156): validations, the
zero-rate special case returning `periods` identical rows, otherwise the
rounded PMT from `calculate_pmt` fed into the period loop.  The final
sum-mismatch check of lines 146-148 only logs and is not modelled. -/
def calculate_amortization (principal annual_rate : ℚ) (periods : ℕ)
    (tenor_type : Tenor) : Except AmortError (List (ℚ × ℚ × ℚ)) :=
  if principal ≤ 0 then .error .invalidPrincipal
  else if annual_rate < 0 ∨ 100 < annual_rate then .error .invalidRate
  else if periods = 0 then .error .invalidPeriods
  else if annual_rate = 0 then
    let installment := round2 (principal / periods)
    .ok (List.replicate periods (installment, installment, 0))
  else
    let rate := annual_rate / 100 / periods_mapping tenor_type
    match calculate_pmt principal annual_rate periods tenor_type with
    | .error e => .error e
    | .ok pmt => amortGo rate pmt periods periods principal

/-- Instrumentation of `amortGo`: `true` iff the run never takes the
negative-balance reset branch of utils.py lines 137-139 (it mirrors the
loop step for step without changing it). -/
def amortNoClamp (rate pmt : ℚ) : ℕ → ℚ → Bool
  | 0, _ => true
  | k + 1, remaining =>
    let pc := (periodRow rate pmt remaining (k = 0)).2.1
    if pc ≤ 0 then true
    else if remaining - pc < -(1/100) ∧ 0 < k then false
    else amortNoClamp rate pmt k (remaining - pc)

/-- Holds (`true`) iff the run of `calculate_amortization` on these inputs never
resets a negative balance (vacuously `true` when the PMT step fails). -/
def clampFree (principal annual_rate : ℚ) (periods : ℕ) (tenor_type : Tenor) : Bool :=
  match calculate_pmt principal annual_rate periods tenor_type with
  | .error _ => true
  | .ok pmt =>
    amortNoClamp (annual_rate / 100 / periods_mapping tenor_type) pmt periods principal

/-- Sum of the `principal_component` column of a schedule. -/
def sumPc (rows : List (ℚ × ℚ × ℚ)) : ℚ :=
  (rows.map fun r => r.2.1).sum

/-- Sum of the `total` column of a schedule. -/
def sumTotal (rows : List (ℚ × ℚ × ℚ)) : ℚ :=
  (rows.map fun r => r.1).sum

/-- Sum of the `interest_component` column of a schedule. -/
def sumIc (rows : List (ℚ × ℚ × ℚ)) : ℚ :=
  (rows.map fun r => r.2.2).sum

/-- Status enumeration `Installment.STATUS_CHOICES` (models.py). -/
inductive InstStatus
  | pending
  | paid
  | late
  | cancelled
deriving DecidableEq, Repr

/-- Status enumeration `PaymentPlan.STATUS_CHOICES` (models.py). -/
inductive PlanStatus
  | active
  | completed
  | cancelled
deriving DecidableEq, Repr

/-- The mutable part of an `Installment` row that the signal pipeline and the
payment view read and write (status, due date as a day number, paid
timestamp). -/
structure Installment where
  status : InstStatus
  dueDate : ℤ
  paidDate : Option ℤ := none
deriving DecidableEq, Repr

/-- A payment plan with its installment rows: `status`,
`number_of_installments` and the related `installments` set. -/
structure PlanState where
  planStatus : PlanStatus
  number_of_installments : ℕ
  installments : List Installment
deriving DecidableEq, Repr

/-- Count of installments with a given status, as
`installments.filter(status=s).count()`. -/
def countStatus (insts : List Installment) (s : InstStatus) : ℕ :=
  insts.countP fun i => decide (i.status = s)

/-- The status recomputation of `update_payment_plan_status_on_save`
(signals.py lines 10-66): the new plan status derived from the current
installment rows, with `total_count = payment_plan.number_of_installments`. -/
def update_payment_plan_status_on_save (s : PlanState) : PlanStatus :=
  let total_count := s.number_of_installments
  let paid_count := countStatus s.installments .paid
  let cancelled_count := countStatus s.installments .cancelled
  let pending_count := countStatus s.installments .pending
  let late_count := countStatus s.installments .late
  if paid_count = total_count ∧ 0 < total_count then .completed
  else if cancelled_count = total_count ∧ 0 < total_count then .cancelled
  else if s.planStatus = .completed ∧ paid_count < total_count then .active
  else if s.planStatus = .cancelled ∧
      (0 < pending_count ∨ 0 < late_count ∨ 0 < paid_count) then .active
  else s.planStatus

/-- Modelled from the spec: the decision table of spec section 4.3,
evaluated in order with first match winning, over the current plan status,
`N = plan.installment_count` and the installment status counts. -/
def specStatusTable (current : PlanStatus) (n paid cancelled pending late : ℕ) :
    PlanStatus :=
  if paid = n ∧ 0 < n then .completed
  else if cancelled = n ∧ 0 < n then .cancelled
  else if current = .completed ∧ paid < n then .active
  else if current = .cancelled ∧ (0 < pending ∨ 0 < late ∨ 0 < paid) then .active
  else current

/-- Model of the property `Installment.is_overdue` (models.py lines
151-155). -/
def is_overdue (today : ℤ) (i : Installment) : Prop :=
  i.status = .pending ∧ i.dueDate < today

instance (today : ℤ) (i : Installment) : Decidable (is_overdue today i) := by
  unfold is_overdue
  infer_instance

/-- Model of `check_overdue_on_save` (signals.py lines 182-203): on save, a pending
installment whose due date is strictly before today is flipped to late by a
targeted queryset `update` (which emits no further save signal). -/
def check_overdue_on_save (today : ℤ) (i : Installment) : Installment :=
  if i.status = .pending ∧ is_overdue today i then { i with status := .late } else i

/-- The full effect of persisting installment `idx` with new row value
`inst`: the write itself, then the two `post_save` receivers in their
registration order — `update_payment_plan_status_on_save` first, then
`check_overdue_on_save`, whose targeted update re-triggers neither receiver. -/
def saveInstallment (today : ℤ) (idx : ℕ) (inst : Installment) (s : PlanState) :
    PlanState :=
  let insts := s.installments.set idx inst
  let newStatus := update_payment_plan_status_on_save
    { s with installments := insts }
  { planStatus := newStatus
    number_of_installments := s.number_of_installments
    installments := insts.set idx (check_overdue_on_save today inst) }

/-- Model of `mark_all_overdue_installments` (signals.py lines 205-238): count the
pending installments with `due_date < today`, bulk-update them to late, and
return the count. -/
def mark_all_overdue_installments (today : ℤ) (insts : List Installment) :
    ℕ × List Installment :=
  ((insts.filter fun i => decide (i.status = .pending ∧ i.dueDate < today)).length,
   insts.map fun i =>
     if i.status = .pending ∧ i.dueDate < today then { i with status := .late } else i)

/-- The typed failures of the `pay_installment` view (views.py lines 84-124)
that the core contract covers. -/
inductive PayError
  | notFound
  | alreadyPaid
  | cancelledInstallment
  | planNotActive
deriving DecidableEq, Repr

/-- Model of the view `pay_installment` (views.py lines 53-132): reject a paid or cancelled
installment and a plan that is not active, otherwise set the installment to
paid with `paid_date = now` and save it (running the signal pipeline).  The
first component is the error of the response, `none` on success; the second
is the resulting ledger state, unchanged on every failure. -/
def pay_installment (now today : ℤ) (idx : ℕ) (s : PlanState) :
    Option PayError × PlanState :=
  match s.installments[idx]? with
  | none => (some .notFound, s)
  | some inst =>
    if inst.status = .paid then (some .alreadyPaid, s)
    else if inst.status = .cancelled then (some .cancelledInstallment, s)
    else if s.planStatus ≠ .active then (some .planNotActive, s)
    else (none, saveInstallment today idx
      { inst with status := .paid, paidDate := some now } s)

/-- A Gregorian calendar date, as the Python type `datetime.date`. -/
structure Date where
  year : ℕ
  month : ℕ
  day : ℕ
deriving DecidableEq, Repr

/-- Gregorian leap-year rule. -/
def isLeapYear (y : ℕ) : Bool :=
  y % 4 = 0 && (y % 100 != 0 || y % 400 = 0)

/-- Number of days of month `m` of year `y`. -/
def daysInMonth (y m : ℕ) : ℕ :=
  if m = 2 then (if isLeapYear y then 29 else 28)
  else if m = 4 ∨ m = 6 ∨ m = 9 ∨ m = 11 then 30
  else 31

/-- The calendar day after `d`. -/
def nextDay (d : Date) : Date :=
  if d.day < daysInMonth d.year d.month then ⟨d.year, d.month, d.day + 1⟩
  else if d.month < 12 then ⟨d.year, d.month + 1, 1⟩
  else ⟨d.year + 1, 1, 1⟩

/-- Python date shift `d + timedelta(days=n)`. -/
def addDays (d : Date) (n : ℕ) : Date :=
  nextDay^[n] d

/-- Days per period, serializers.py line 97 days_mapping: month to 30, week
to 7, day to 1. -/
def days_mapping : Tenor → ℕ
  | .month => 30
  | .week => 7
  | .day => 1

/-- The due dates assigned by
`PaymentPlanCreateSerializer._create_installments` (serializers.py lines
96-118): installment `i` (0-based) gets
`start_date + timedelta(days=days_per_period * i)`. -/
def installmentDueDates (start_date : Date) (tenor_type : Tenor) (n : ℕ) :
    List Date :=
  (List.range n).map fun i => addDays start_date (days_mapping tenor_type * i)

/-- Lexicographic strict order on dates (Python date comparison). -/
def Date.before (a b : Date) : Bool :=
  a.year < b.year ||
    (a.year = b.year && (a.month < b.month ||
      (a.month = b.month && a.day < b.day)))

/-- The distinct validation failures of `PaymentPlanCreateSerializer`. -/
inductive CreateError
  | invalidRate
  | invalidAmount
  | invalidCount
  | invalidStartDate
  | amortFailed
deriving DecidableEq, Repr

/-- The writable fields of a plan-creation request (serializers.py
lines 23-29). -/
structure CreateRequest where
  total_amount : ℚ
  number_of_installments : ℤ
  start_date : Date
  tenor_type : Tenor
  interest_rate : ℚ
deriving DecidableEq, Repr

/-- Model of `validate_number_of_installments` (serializers.py lines 41-44): raises
exactly when the value is below 1 or above the cap of 12. -/
def validate_number_of_installments (value : ℤ) : Option CreateError :=
  if value < 1 ∨ 12 < value then some .invalidCount else none

/-- The field validators of `PaymentPlanCreateSerializer` (serializers.py
lines 31-49); any failing field rejects the request before `create` runs. -/
def createPlanValidate (today : Date) (r : CreateRequest) : Option CreateError :=
  if r.interest_rate < 0 ∨ 100 < r.interest_rate then some .invalidRate
  else if r.total_amount ≤ 0 then some .invalidAmount
  else
    match validate_number_of_installments r.number_of_installments with
    | some e => some e
    | none =>
      if Date.before r.start_date today then some .invalidStartDate
      else none

/-- A persisted plan together with its installment rows, as created by the
atomic `create` of the serializer. -/
structure PlanRecord where
  request : CreateRequest
  schedule : List (ℚ × ℚ × ℚ)
  dueDates : List Date
deriving DecidableEq, Repr

/-- Model of `PaymentPlanCreateSerializer.create` plus `_create_installments`
(serializers.py lines 51-132): validation, then the amortization schedule
and due dates, persisted atomically — on any failure the ledger is
untouched. -/
def create_plan (today : Date) (r : CreateRequest) (ledger : List PlanRecord) :
    Option CreateError × List PlanRecord :=
  match createPlanValidate today r with
  | some e => (some e, ledger)
  | none =>
    match calculate_amortization r.total_amount r.interest_rate
        r.number_of_installments.toNat r.tenor_type with
    | .error _ => (some .amortFailed, ledger)
    | .ok sched =>
      (none, ledger ++ [{ request := r
                          schedule := sched
                          dueDates := installmentDueDates r.start_date r.tenor_type
                            r.number_of_installments.toNat }])

/-! ## Rounding lemmas -/

theorem abs_halfUp_sub (q : ℚ) : |((halfUp q : ℤ) : ℚ) - q| ≤ 1/2 := by
  unfold halfUp
  split
  · have h1 : ((⌊q + 1/2⌋ : ℤ) : ℚ) ≤ q + 1/2 := Int.floor_le _
    have h2 : q + 1/2 < (⌊q + 1/2⌋ : ℚ) + 1 := Int.lt_floor_add_one _
    rw [abs_le]
    constructor <;> linarith
  · have h1 : ((⌊-q + 1/2⌋ : ℤ) : ℚ) ≤ -q + 1/2 := Int.floor_le _
    have h2 : -q + 1/2 < (⌊-q + 1/2⌋ : ℚ) + 1 := Int.lt_floor_add_one _
    rw [abs_le]
    push_cast
    constructor <;> linarith

theorem abs_round2_sub (q : ℚ) : |round2 q - q| ≤ 1/200 := by
  have h := abs_halfUp_sub (q * 100)
  rw [abs_le] at h ⊢
  unfold round2
  constructor <;> [linarith [h.1]; linarith [h.2]]

theorem round2_nonneg (q : ℚ) (h : -(1/200) < q) : 0 ≤ round2 q := by
  unfold round2 halfUp
  split
  · have h0 : (0 : ℤ) ≤ ⌊q * 100 + 1/2⌋ := by
      apply Int.le_floor.mpr
      push_cast
      nlinarith
    positivity
  · rename_i hneg
    have hq : -(1/2) < q * 100 := by linarith
    have h0 : ⌊-(q * 100) + 1/2⌋ = 0 := by
      apply Int.floor_eq_zero_iff.mpr
      constructor <;> simp <;> nlinarith [not_le.mp hneg]
    rw [h0]
    norm_num

theorem isCents_round2 (q : ℚ) : isCents (round2 q) :=
  ⟨halfUp (q * 100), rfl⟩

theorem isCents_sub {a b : ℚ} (ha : isCents a) (hb : isCents b) : isCents (a - b) := by
  obtain ⟨x, rfl⟩ := ha
  obtain ⟨y, rfl⟩ := hb
  exact ⟨x - y, by push_cast; ring⟩

theorem halfUp_intCast (z : ℤ) : halfUp (z : ℚ) = z := by
  unfold halfUp
  split
  · rw [add_comm, Int.floor_add_int]
    norm_num
  · rename_i hz
    have : -(z : ℚ) + 1/2 = 1/2 + ((-z : ℤ) : ℚ) := by push_cast; ring
    rw [this, Int.floor_add_int]
    norm_num

theorem round2_eq_self {q : ℚ} (h : isCents q) : round2 q = q := by
  obtain ⟨z, rfl⟩ := h
  unfold round2
  have h100 : (z : ℚ) / 100 * 100 = (z : ℚ) := by field_simp
  rw [h100, halfUp_intCast]

theorem round2_add_sub_bound (x y : ℚ) :
    |round2 (x + y) - round2 x - round2 y| ≤ 1/100 := by
  have ha := abs_round2_sub (x + y)
  have hb := abs_round2_sub x
  have hc := abs_round2_sub y
  rw [abs_le] at ha hb hc
  have hδ : round2 (x + y) - round2 x - round2 y =
      ((halfUp ((x + y) * 100) - halfUp (x * 100) - halfUp (y * 100) : ℤ) : ℚ) / 100 := by
    unfold round2
    push_cast
    ring
  set z : ℤ := halfUp ((x + y) * 100) - halfUp (x * 100) - halfUp (y * 100) with hzdef
  have hzq : |(z : ℚ)| ≤ 3/2 := by
    rw [abs_le]
    have e : (z : ℚ) = (round2 (x + y) - (x + y)) * 100 - (round2 x - x) * 100 -
        (round2 y - y) * 100 := by
      have e1 : round2 (x + y) - round2 x - round2 y = (z : ℚ) / 100 := hδ
      have : (z : ℚ) = (round2 (x + y) - round2 x - round2 y) * 100 := by
        rw [e1]; field_simp
      rw [this]; ring
    constructor <;> rw [e] <;> nlinarith [ha.1, ha.2, hb.1, hb.2, hc.1, hc.2]
  have hz1 : |z| ≤ 1 := by
    by_contra hcon
    have h2 : (2 : ℤ) ≤ |z| := by omega
    have : ((2 : ℤ) : ℚ) ≤ ((|z| : ℤ) : ℚ) := by exact_mod_cast h2
    rw [Int.cast_abs] at this
    norm_num at this
    linarith
  rw [hδ, abs_div]
  have : |(z : ℚ)| ≤ 1 := by
    calc |(z : ℚ)| = ((|z| : ℤ) : ℚ) := by rw [Int.cast_abs]
    _ ≤ 1 := by exact_mod_cast hz1
  rw [abs_of_pos (by norm_num : (0:ℚ) < 100)]
  linarith

/-! ## Amortization loop lemmas -/

theorem sumPc_cons (r : ℚ × ℚ × ℚ) (l : List (ℚ × ℚ × ℚ)) :
    sumPc (r :: l) = r.2.1 + sumPc l := by
  simp [sumPc]

theorem periodRow_pc (rate pmt remaining : ℚ) (f : Bool) :
    (periodRow rate pmt remaining f).2.1 =
      round2 (if f then remaining else pmt - remaining * rate) := rfl

theorem amortGo_pc_pos (rate pmt : ℚ) (total : ℕ) :
    ∀ (k : ℕ) (remaining : ℚ) (rows : List (ℚ × ℚ × ℚ)),
      amortGo rate pmt total k remaining = .ok rows →
      ∀ row ∈ rows, 0 < row.2.1 := by
  intro k
  induction k with
  | zero =>
    intro remaining rows h row hrow
    simp only [amortGo] at h
    cases h
    simp at hrow
  | succ k ih =>
    intro remaining rows h row hrow
    simp only [amortGo] at h
    by_cases hpc : (periodRow rate pmt remaining (k = 0)).2.1 ≤ 0
    · rw [if_pos hpc] at h
      cases h
    · rw [if_neg hpc] at h
      rcases hgo : amortGo rate pmt total k
          (nextRemaining remaining (periodRow rate pmt remaining (k = 0)).2.1 k) with e | rest
      · rw [hgo] at h
        cases h
      · rw [hgo] at h
        cases h
        rcases List.mem_cons.mp hrow with hr | hr
        · rw [hr]
          exact lt_of_not_le hpc
        · exact ih _ _ hgo row hr

theorem periodRow_ic_nonneg (rate pmt remaining : ℚ) (f : Bool) :
    0 ≤ (periodRow rate pmt remaining f).2.2 := by
  unfold periodRow
  dsimp only
  split
  · exact le_refl 0
  · rename_i hic
    exact le_of_not_lt hic

theorem interest_lb (rate remaining : ℚ) (hr0 : 0 ≤ rate) (hr : rate ≤ 1/12)
    (hrem : -(1/100) ≤ remaining) : -(1/200) < remaining * rate := by
  nlinarith [mul_nonneg (by linarith : (0:ℚ) ≤ remaining + 1/100) hr0]

theorem periodRow_balance (rate pmt remaining : ℚ) (hr0 : 0 ≤ rate)
    (hr : rate ≤ 1/12) (hrem : -(1/100) ≤ remaining) (f : Bool) :
    |(periodRow rate pmt remaining f).1 -
      ((periodRow rate pmt remaining f).2.1 + (periodRow rate pmt remaining f).2.2)| ≤
      1/100 := by
  have hic : ¬ round2 (remaining * rate) < 0 :=
    not_lt.mpr (round2_nonneg _ (interest_lb rate remaining hr0 hr hrem))
  unfold periodRow
  dsimp only
  rw [if_neg hic]
  cases f
  · have h := round2_add_sub_bound (pmt - remaining * rate) (remaining * rate)
    rw [sub_add_cancel] at h
    simpa [sub_sub] using h
  · have h := round2_add_sub_bound remaining (remaining * rate)
    simpa [sub_sub] using h

theorem nextRemaining_lb (remaining pc : ℚ) (k : ℕ) (hk : 0 < k) :
    -(1/100) ≤ nextRemaining remaining pc k := by
  unfold nextRemaining
  split
  · norm_num
  · rename_i h
    rcases not_and_or.mp h with h1 | h1
    · linarith [not_lt.mp h1]
    · exact absurd hk h1

theorem amortGo_row_balance (rate pmt : ℚ) (hr0 : 0 ≤ rate) (hr : rate ≤ 1/12)
    (total : ℕ) :
    ∀ (k : ℕ) (remaining : ℚ) (rows : List (ℚ × ℚ × ℚ)),
      -(1/100) ≤ remaining →
      amortGo rate pmt total k remaining = .ok rows →
      ∀ row ∈ rows, |row.1 - (row.2.1 + row.2.2)| ≤ 1/100 := by
  intro k
  induction k with
  | zero =>
    intro remaining rows hrem h row hrow
    simp only [amortGo] at h
    cases h
    simp at hrow
  | succ k ih =>
    intro remaining rows hrem h row hrow
    simp only [amortGo] at h
    by_cases hpc : (periodRow rate pmt remaining (k = 0)).2.1 ≤ 0
    · rw [if_pos hpc] at h
      cases h
    · rw [if_neg hpc] at h
      rcases hgo : amortGo rate pmt total k
          (nextRemaining remaining (periodRow rate pmt remaining (k = 0)).2.1 k) with e | rest
      · rw [hgo] at h
        cases h
      · rw [hgo] at h
        cases h
        rcases List.mem_cons.mp hrow with hmem | hmem
        · rw [hmem]
          exact periodRow_balance rate pmt remaining hr0 hr hrem _
        · rcases Nat.eq_zero_or_pos k with hk0 | hk0
          · subst hk0
            simp only [amortGo] at hgo
            cases hgo
            simp at hmem
          · exact ih _ _ (nextRemaining_lb _ _ _ hk0) hgo row hmem

theorem isCents_periodRow_pc (rate pmt remaining : ℚ) (f : Bool) :
    isCents ((periodRow rate pmt remaining f).2.1) := by
  rw [periodRow_pc]
  exact isCents_round2 _

theorem amortGo_sumPc (rate pmt : ℚ) (total : ℕ) :
    ∀ (k : ℕ) (remaining : ℚ) (rows : List (ℚ × ℚ × ℚ)),
      0 < k → isCents remaining →
      amortNoClamp rate pmt k remaining = true →
      amortGo rate pmt total k remaining = .ok rows →
      sumPc rows = remaining := by
  intro k
  induction k with
  | zero =>
    intro remaining rows hk
    exact absurd hk (lt_irrefl 0)
  | succ k ih =>
    intro remaining rows hk hcents hnc h
    simp only [amortGo] at h
    simp only [amortNoClamp] at hnc
    by_cases hpc : (periodRow rate pmt remaining (k = 0)).2.1 ≤ 0
    · rw [if_pos hpc] at h
      cases h
    · rw [if_neg hpc] at h
      rw [periodRow_pc] at hnc
      rw [if_neg (by rw [periodRow_pc] at hpc; exact hpc)] at hnc
      by_cases hclamp : remaining - (periodRow rate pmt remaining (k = 0)).2.1 < -(1/100) ∧ 0 < k
      · rw [periodRow_pc] at hclamp
        rw [if_pos hclamp] at hnc
        cases hnc
      · have hnext : nextRemaining remaining (periodRow rate pmt remaining (k = 0)).2.1 k =
            remaining - (periodRow rate pmt remaining (k = 0)).2.1 := by
          unfold nextRemaining
          rw [if_neg hclamp]
        rw [periodRow_pc] at hclamp
        rw [if_neg hclamp] at hnc
        rcases hgo : amortGo rate pmt total k
            (nextRemaining remaining (periodRow rate pmt remaining (k = 0)).2.1 k) with e | rest
        · rw [hgo] at h
          cases h
        · rw [hgo] at h
          cases h
          rw [sumPc_cons]
          rcases Nat.eq_zero_or_pos k with hk0 | hk0
          · subst hk0
            simp only [amortGo] at hgo
            cases hgo
            have hfin : (periodRow rate pmt remaining (0 = 0)).2.1 = remaining := by
              rw [periodRow_pc]
              simp only [decide_true_eq_true, if_pos]
              exact round2_eq_self hcents
            simp only [sumPc, List.map_nil, List.sum_nil, add_zero]
            simpa using hfin
          · have hrest := ih (nextRemaining remaining
                (periodRow rate pmt remaining (k = 0)).2.1 k) rest hk0
                (by rw [hnext]
                    exact isCents_sub hcents (isCents_periodRow_pc rate pmt remaining _))
                (by rw [hnext, periodRow_pc]
                    exact hnc)
                hgo
            rw [hrest, hnext]
            ring

theorem rate_bounds (annual_rate : ℚ) (h0 : 0 ≤ annual_rate)
    (h100 : annual_rate ≤ 100) (t : Tenor) :
    0 ≤ annual_rate / 100 / periods_mapping t ∧
      annual_rate / 100 / periods_mapping t ≤ 1/12 := by
  cases t <;> simp only [periods_mapping] <;> constructor <;> norm_num <;> linarith

theorem calculate_amortization_nonzero_ok {P r : ℚ} {n : ℕ} {t : Tenor}
    {rows : List (ℚ × ℚ × ℚ)} (hr : r ≠ 0)
    (h : calculate_amortization P r n t = .ok rows) :
    0 < P ∧ 0 ≤ r ∧ r ≤ 100 ∧ 0 < n ∧
      ∃ pmt, calculate_pmt P r n t = .ok pmt ∧
        amortGo (r / 100 / periods_mapping t) pmt n n P = .ok rows := by
  unfold calculate_amortization at h
  split_ifs at h with hP hR hN
  push_neg at hR
  refine ⟨not_le.mp hP, hR.1, hR.2, Nat.pos_of_ne_zero hN, ?_⟩
  rcases hp : calculate_pmt P r n t with e | pmt
  · rw [hp] at h
    exact Except.noConfusion h
  · rw [hp] at h
    exact ⟨pmt, rfl, h⟩

theorem calculate_amortization_zero_ok {P : ℚ} {n : ℕ} {t : Tenor}
    (hP : 0 < P) (hn : 0 < n) :
    calculate_amortization P 0 n t =
      .ok (List.replicate n (round2 (P / n), round2 (P / n), 0)) := by
  unfold calculate_amortization
  rw [if_neg (not_le.mpr hP), if_neg (by norm_num), if_neg (Nat.pos_iff_ne_zero.mp hn),
    if_pos rfl]

theorem amortGo_ic_nonneg (rate pmt : ℚ) (total : ℕ) :
    ∀ (k : ℕ) (remaining : ℚ) (rows : List (ℚ × ℚ × ℚ)),
      amortGo rate pmt total k remaining = .ok rows →
      ∀ row ∈ rows, 0 ≤ row.2.2 := by
  intro k
  induction k with
  | zero =>
    intro remaining rows h row hrow
    simp only [amortGo] at h
    cases h
    simp at hrow
  | succ k ih =>
    intro remaining rows h row hrow
    simp only [amortGo] at h
    by_cases hpc : (periodRow rate pmt remaining (k = 0)).2.1 ≤ 0
    · rw [if_pos hpc] at h
      cases h
    · rw [if_neg hpc] at h
      rcases hgo : amortGo rate pmt total k
          (nextRemaining remaining (periodRow rate pmt remaining (k = 0)).2.1 k) with e | rest
      · rw [hgo] at h
        cases h
      · rw [hgo] at h
        cases h
        rcases List.mem_cons.mp hrow with hmem | hmem
        · rw [hmem]
          exact periodRow_ic_nonneg rate pmt remaining _
        · exact ih _ _ hgo row hmem

theorem sum_balance (rows : List (ℚ × ℚ × ℚ))
    (h : ∀ row ∈ rows, |row.1 - (row.2.1 + row.2.2)| ≤ 1/100) :
    |sumTotal rows - (sumPc rows + sumIc rows)| ≤ rows.length * (1/100) := by
  induction rows with
  | nil => simp [sumTotal, sumPc, sumIc]
  | cons r l ih =>
    have hr := h r (List.mem_cons_self r l)
    have hl := ih fun row hrow => h row (List.mem_cons_of_mem r hrow)
    have e : sumTotal (r :: l) - (sumPc (r :: l) + sumIc (r :: l)) =
        (r.1 - (r.2.1 + r.2.2)) + (sumTotal l - (sumPc l + sumIc l)) := by
      simp [sumTotal, sumPc, sumIc]
      ring
    rw [e]
    calc |(r.1 - (r.2.1 + r.2.2)) + (sumTotal l - (sumPc l + sumIc l))| ≤
        |r.1 - (r.2.1 + r.2.2)| + |sumTotal l - (sumPc l + sumIc l)| := abs_add _ _
    _ ≤ 1/100 + l.length * (1/100) := by linarith
    _ = (r :: l).length * (1/100) := by
        simp [List.length_cons]
        ring

theorem calculate_amortization_zero_elim {P : ℚ} {n : ℕ} {t : Tenor}
    {rows : List (ℚ × ℚ × ℚ)}
    (h : calculate_amortization P 0 n t = .ok rows) :
    0 < P ∧ 0 < n ∧ rows = List.replicate n (round2 (P / n), round2 (P / n), 0) := by
  unfold calculate_amortization at h
  split_ifs at h with hP hR hN hZ
  · injection h with hh
    exact ⟨not_le.mp hP, Nat.pos_of_ne_zero hN, hh.symm⟩
  · exact absurd rfl hZ

/-! ## Claim theorems: amortization engine (C1, C3, C5, C9) -/

/-- Claim C1, counterexample: at the valid input
`(principal, rate, count, cadence) = (1000, 0, 3, month)` the returned
schedule has principal components summing to `999.99`, not `1000` — the
zero-rate path of `calculate_amortization` emits three identical rows of
`333.33` and absorbs no remainder. -/
theorem C1_counterexample :
    calculate_amortization 1000 0 3 Tenor.month =
      .ok [(33333/100, 33333/100, 0), (33333/100, 33333/100, 0), (33333/100, 33333/100, 0)] ∧
    sumPc [(33333/100, 33333/100, 0), (33333/100, 33333/100, 0),
      (33333/100, 33333/100, 0)] ≠ 1000 := by
  constructor
  · norm_num [calculate_amortization, calculate_pmt, amortGo, periodRow, nextRemaining,
      round2, halfUp, periods_mapping, List.replicate]
  · norm_num [sumPc]

/-- Claim C1, amended: (a) for every valid input with a nonzero rate whose
principal is a whole number of cents and whose run never takes the
negative-balance reset, the principal components of the returned schedule
sum exactly to the principal (the final-period correction); (b) for every
returned schedule the sum of the `total` column agrees with the sum of the
principal plus interest columns only to within one cent per row — not
exactly, as the original claim stated, and at rate zero the principal sum
is `count * round2(principal/count)`, which can miss the principal. -/
theorem C1_amended :
    (∀ (P r : ℚ) (n : ℕ) (t : Tenor) (rows : List (ℚ × ℚ × ℚ)),
        r ≠ 0 → isCents P → clampFree P r n t = true →
        calculate_amortization P r n t = .ok rows →
        sumPc rows = P) ∧
    (∀ (P r : ℚ) (n : ℕ) (t : Tenor) (rows : List (ℚ × ℚ × ℚ)),
        calculate_amortization P r n t = .ok rows →
        |sumTotal rows - (sumPc rows + sumIc rows)| ≤ rows.length * (1/100)) := by
  constructor
  · intro P r n t rows hr hcents hcf h
    obtain ⟨hP, hr0, hr100, hn, pmt, hpmt, hgo⟩ := calculate_amortization_nonzero_ok hr h
    unfold clampFree at hcf
    rw [hpmt] at hcf
    exact amortGo_sumPc _ _ n n P rows hn hcents hcf hgo
  · intro P r n t rows h
    apply sum_balance
    by_cases hr : r = 0
    · subst hr
      obtain ⟨hP, hn, hrows⟩ := calculate_amortization_zero_elim h
      subst hrows
      intro row hrow
      rw [List.eq_of_mem_replicate hrow]
      simp
    · obtain ⟨hP, hr0, hr100, hn, pmt, hpmt, hgo⟩ := calculate_amortization_nonzero_ok hr h
      obtain ⟨hb0, hb1⟩ := rate_bounds r hr0 hr100 t
      exact amortGo_row_balance _ _ hb0 hb1 n n P rows (by linarith) hgo

/-- Claim C1, witness: at `(1000, 12, 3, month)` the hypotheses of the
amended claim hold and the principal components sum exactly to `1000`. -/
theorem C1_witness :
    sumPc [(17001/50, 16501/50, 10), (17001/50, 8333/25, 67/10),
      (34003/100, 16833/50, 337/100)] = 1000 :=
  C1_amended.1 1000 12 3 Tenor.month _ (by norm_num) ⟨100000, by norm_num⟩
    (by norm_num [clampFree, calculate_pmt, amortNoClamp, periodRow, round2, halfUp,
      periods_mapping])
    (by norm_num [calculate_amortization, calculate_pmt, amortGo, periodRow, nextRemaining,
      round2, halfUp, periods_mapping])

/-- Claim C3, counterexample: `amortize(1000, 0, 3, month)` returns three
identical rows of `333.33`; the last period does not absorb the remainder,
so the claimed literal `[(333.33, …), (333.33, …), (333.34, …)]` is wrong. -/
theorem C3_counterexample :
    calculate_amortization 1000 0 3 Tenor.month ≠
      .ok [(33333/100, 33333/100, 0), (33333/100, 33333/100, 0), (33334/100, 33334/100, 0)] ∧
    calculate_amortization 1000 0 3 Tenor.month =
      .ok [(33333/100, 33333/100, 0), (33333/100, 33333/100, 0),
        (33333/100, 33333/100, 0)] := by
  constructor <;>
    norm_num [calculate_amortization, calculate_pmt, amortGo, periodRow, nextRemaining,
      round2, halfUp, periods_mapping, List.replicate]

/-- Claim C3, amended: for every valid zero-rate input the schedule is
`period_count` identical rows `(q, q, 0)` with `q = round2(principal /
period_count)`; no period absorbs the rounding remainder. -/
theorem C3_amended :
    ∀ (P : ℚ) (n : ℕ) (t : Tenor), 0 < P → 0 < n →
      calculate_amortization P 0 n t =
        .ok (List.replicate n (round2 (P / n), round2 (P / n), 0)) :=
  fun _ _ _ hP hn => calculate_amortization_zero_ok hP hn

/-- Claim C3, witness: the amended claim evaluated at `(1000, 0, 3, month)`
gives the three identical `333.33` rows. -/
theorem C3_witness :
    calculate_amortization 1000 0 3 Tenor.month =
      .ok [(33333/100, 33333/100, 0), (33333/100, 33333/100, 0),
        (33333/100, 33333/100, 0)] := by
  rw [C3_amended 1000 3 Tenor.month (by norm_num) (by norm_num)]
  norm_num [round2, halfUp, List.replicate]

/-- Claim C5, counterexample: at `(5.00, 1.2, 2, month)` the first row is
`(2.50, 2.50, 0.01)`: its total differs from principal plus interest by one
cent, because `interest = 0.005` rounds up while the principal component
`2.495` also rounds up. -/
theorem C5_counterexample :
    calculate_amortization 5 (6/5) 2 Tenor.month =
      .ok [(5/2, 5/2, 1/100), (5/2, 5/2, 0)] ∧
    ¬((5:ℚ)/2 = 5/2 + 1/100) := by
  constructor
  · norm_num [calculate_amortization, calculate_pmt, amortGo, periodRow, nextRemaining,
      round2, halfUp, periods_mapping]
  · norm_num

/-- Claim C5, amended: every returned row has `principal_component ≥ 0`
(strictly positive whenever the rate is nonzero; the zero-rate path can
round a tiny per-period amount down to `0.00`), `interest_component ≥ 0`,
and `total = principal_component + interest_component` up to at most one
cent — not exactly, as the original claim stated. -/
theorem C5_amended :
    ∀ (P r : ℚ) (n : ℕ) (t : Tenor) (rows : List (ℚ × ℚ × ℚ)),
      calculate_amortization P r n t = .ok rows →
      ∀ row ∈ rows,
        0 ≤ row.2.1 ∧ 0 ≤ row.2.2 ∧ |row.1 - (row.2.1 + row.2.2)| ≤ 1/100 ∧
          (r ≠ 0 → 0 < row.2.1) := by
  intro P r n t rows h row hrow
  by_cases hr : r = 0
  · subst hr
    obtain ⟨hP, hn, hrows⟩ := calculate_amortization_zero_elim h
    subst hrows
    rw [List.eq_of_mem_replicate hrow]
    have hq : 0 ≤ round2 (P / n) := by
      apply round2_nonneg
      have : 0 < P / (n : ℚ) := div_pos hP (by exact_mod_cast hn)
      linarith
    exact ⟨hq, le_refl 0, by simp, fun hc => absurd rfl hc⟩
  · obtain ⟨hP, hr0, hr100, hn, pmt, hpmt, hgo⟩ := calculate_amortization_nonzero_ok hr h
    obtain ⟨hb0, hb1⟩ := rate_bounds r hr0 hr100 t
    exact ⟨le_of_lt (amortGo_pc_pos _ _ n n P rows hgo row hrow),
      amortGo_ic_nonneg _ _ n n P rows hgo row hrow,
      amortGo_row_balance _ _ hb0 hb1 n n P rows (by linarith) hgo row hrow,
      fun _ => amortGo_pc_pos _ _ n n P rows hgo row hrow⟩

/-- Claim C5, witness: the amended claim evaluated at `(1000, 12, 3, month)`
on the first schedule row `(340.02, 330.02, 10.00)`. -/
theorem C5_witness :
    (0:ℚ) ≤ 16501/50 ∧ (0:ℚ) ≤ 10 ∧ |(17001:ℚ)/50 - (16501/50 + 10)| ≤ 1/100 ∧
      ((12:ℚ) ≠ 0 → (0:ℚ) < 16501/50) :=
  C5_amended 1000 12 3 Tenor.month
    [(17001/50, 16501/50, 10), (17001/50, 8333/25, 67/10), (34003/100, 16833/50, 337/100)]
    (by norm_num [calculate_amortization, calculate_pmt, amortGo, periodRow, nextRemaining,
      round2, halfUp, periods_mapping])
    (17001/50, 16501/50, 10) (List.mem_cons_self _ _)

/-- Claim C9, counterexample: at the valid input `(0.01, 0, 3, month)` the
computed principal component is `0.00` for every period including non-final
ones, yet `calculate_amortization` succeeds instead of failing with an
`AmortizationError`, emitting three rows with zero principal component. -/
theorem C9_counterexample :
    calculate_amortization (1/100) 0 3 Tenor.month =
      .ok [(0, 0, 0), (0, 0, 0), (0, 0, 0)] ∧ ((0:ℚ) ≤ 0) := by
  constructor
  · norm_num [calculate_amortization, calculate_pmt, amortGo, periodRow, nextRemaining,
      round2, halfUp, periods_mapping, List.replicate]
  · exact le_refl 0

/-- Claim C9, amended: in the nonzero-rate path a rounded principal
component `≤ 0` at any period aborts with the typed amortization error, so
any schedule returned for a nonzero rate contains only rows with strictly
positive principal component; the zero-rate path instead emits rows with
`principal_component = round2(principal/count)`, which can be zero. -/
theorem C9_amended :
    ∀ (P r : ℚ) (n : ℕ) (t : Tenor) (rows : List (ℚ × ℚ × ℚ)),
      r ≠ 0 → calculate_amortization P r n t = .ok rows →
      ∀ row ∈ rows, 0 < row.2.1 := by
  intro P r n t rows hr h
  obtain ⟨hP, hr0, hr100, hn, pmt, hpmt, hgo⟩ := calculate_amortization_nonzero_ok hr h
  exact amortGo_pc_pos _ _ n n P rows hgo

/-- Claim C9, witness: the amended claim evaluated at `(1000, 12, 3, month)`
on the second schedule row, whose principal component `333.32` is positive. -/
theorem C9_witness : (0:ℚ) < 8333/25 :=
  C9_amended 1000 12 3 Tenor.month
    [(17001/50, 16501/50, 10), (17001/50, 8333/25, 67/10), (34003/100, 16833/50, 337/100)]
    (by norm_num)
    (by norm_num [calculate_amortization, calculate_pmt, amortGo, periodRow, nextRemaining,
      round2, halfUp, periods_mapping])
    (17001/50, 8333/25, 67/10)
    (List.mem_cons_of_mem _ (List.mem_cons_self _ _))

/-! ## Claim theorems: status reconciler, overdue detector, payment, creation -/

set_option maxRecDepth 10000 in
/-- Claim C2 (confirmed): after every installment save the plan status
equals the decision table of the spec, evaluated in order with first match
winning on the post-write installment counts with
`N = plan.number_of_installments`; in particular, setting one installment of
a completed plan back to pending reactivates the plan. -/
theorem C2_status_reconciler :
    (∀ (today : ℤ) (idx : ℕ) (inst : Installment) (s : PlanState),
      (saveInstallment today idx inst s).planStatus =
        specStatusTable s.planStatus s.number_of_installments
          (countStatus (s.installments.set idx inst) .paid)
          (countStatus (s.installments.set idx inst) .cancelled)
          (countStatus (s.installments.set idx inst) .pending)
          (countStatus (s.installments.set idx inst) .late)) ∧
    (saveInstallment 0 0 { status := .pending, dueDate := 5, paidDate := none }
        { planStatus := .completed
          number_of_installments := 3
          installments := [{ status := .paid, dueDate := 1, paidDate := some 0 },
            { status := .paid, dueDate := 2, paidDate := some 0 },
            { status := .paid, dueDate := 3, paidDate := some 0 }] }).planStatus =
      .active := by
  constructor
  · intro today idx inst s
    rfl
  · decide

set_option maxRecDepth 100000 in
/-- Claim C4, counterexample: a monthly plan starting 2025-01-01 with 3
installments is due on 2025-01-01, 2025-01-31 and 2025-03-02 — the source
advances due dates by 30 days per monthly period, not by one calendar
month, so the claimed dates 2025-02-01 and 2025-03-01 are wrong. -/
theorem C4_counterexample :
    installmentDueDates ⟨2025, 1, 1⟩ Tenor.month 3 =
      [⟨2025, 1, 1⟩, ⟨2025, 1, 31⟩, ⟨2025, 3, 2⟩] ∧
    installmentDueDates ⟨2025, 1, 1⟩ Tenor.month 3 ≠
      [⟨2025, 1, 1⟩, ⟨2025, 2, 1⟩, ⟨2025, 3, 1⟩] := by
  constructor <;> decide

/-- Claim C4, amended: plan creation assigns installment `i` (0-based) the
due date `start_date + i * days_per_period` days, where a month counts as
30 days, a week as 7 and a day as 1; the first installment is due on the
start date of the plan itself. -/
theorem C4_amended :
    (∀ (start : Date) (t : Tenor) (n i : ℕ), i < n →
      (installmentDueDates start t n)[i]? =
        some (addDays start (days_mapping t * i))) ∧
    (∀ (start : Date) (t : Tenor) (n : ℕ), 0 < n →
      (installmentDueDates start t n)[0]? = some start) := by
  have hget : ∀ (start : Date) (t : Tenor) (n i : ℕ), i < n →
      (installmentDueDates start t n)[i]? =
        some (addDays start (days_mapping t * i)) := by
    intro start t n i hi
    unfold installmentDueDates
    rw [List.getElem?_map, List.getElem?_range hi]
    rfl
  refine ⟨hget, fun start t n hn => ?_⟩
  rw [hget start t n 0 hn]
  rfl

set_option maxRecDepth 100000 in
/-- Claim C4, witness: the amended claim at `(2025-01-01, month, 3)` puts
the second installment (index 1) on 2025-01-31, thirty days after start. -/
theorem C4_witness :
    (installmentDueDates ⟨2025, 1, 1⟩ Tenor.month 3)[1]? = some ⟨2025, 1, 31⟩ := by
  rw [C4_amended.1 ⟨2025, 1, 1⟩ Tenor.month 3 1 (by norm_num)]
  decide

/-- Claim C6 (confirmed): `pay_installment` rejects a paid installment with
the already-paid error, a cancelled one with the cancelled-installment
error, and any installment of a non-active plan with the plan-not-active
error; every failure leaves the state exactly as before the call, and on
success the installment is stored as paid with its paid timestamp set. -/
theorem C6_pay_installment :
    ∀ (now today : ℤ) (idx : ℕ) (s : PlanState) (inst : Installment),
      s.installments[idx]? = some inst →
      (inst.status = .paid →
        pay_installment now today idx s = (some .alreadyPaid, s)) ∧
      (inst.status = .cancelled →
        pay_installment now today idx s = (some .cancelledInstallment, s)) ∧
      (inst.status ≠ .paid → inst.status ≠ .cancelled → s.planStatus ≠ .active →
        pay_installment now today idx s = (some .planNotActive, s)) ∧
      (∀ (e : PayError) (s2 : PlanState),
        pay_installment now today idx s = (some e, s2) → s2 = s) ∧
      (∀ s2 : PlanState,
        pay_installment now today idx s = (none, s2) →
        s2.installments[idx]? =
          some { inst with status := .paid, paidDate := some now }) := by
  intro now today idx s inst hidx
  have hlen : idx < s.installments.length := by
    rcases List.getElem?_eq_some_iff.mp hidx with ⟨hl, _⟩
    exact hl
  simp only [pay_installment, hidx]
  refine ⟨fun hp => by rw [if_pos hp], fun hc => ?_, fun hp hc ha => ?_, ?_, ?_⟩
  · rw [if_neg ?_, if_pos hc]
    rw [hc]
    intro hcon
    exact InstStatus.noConfusion hcon
  · rw [if_neg hp, if_neg hc, if_pos ha]
  · intro e s2 h
    split_ifs at h with h1 h2 h3
    · exact (congrArg Prod.snd h).symm
    · exact (congrArg Prod.snd h).symm
    · exact (congrArg Prod.snd h).symm
    · exact Option.noConfusion (congrArg Prod.fst h)
  · intro s2 h
    split_ifs at h with h1 h2 h3
    · exact Option.noConfusion (congrArg Prod.fst h)
    · exact Option.noConfusion (congrArg Prod.fst h)
    · exact Option.noConfusion (congrArg Prod.fst h)
    · obtain rfl : saveInstallment today idx
          { inst with status := .paid, paidDate := some now } s = s2 :=
        congrArg Prod.snd h
      unfold saveInstallment
      simp only
      rw [List.set_set]
      have hpaid : check_overdue_on_save today
          { inst with status := .paid, paidDate := some now } =
          { inst with status := .paid, paidDate := some now } := by
        unfold check_overdue_on_save
        rw [if_neg]
        intro hcon
        exact InstStatus.noConfusion hcon.1
      rw [hpaid]
      exact List.getElem?_set_self (by simpa using hlen)

/-- Claim C6, witness: on a two-installment active plan, paying the pending
installment at index 1 succeeds and stores it as paid with timestamp 99;
paying the already-paid installment at index 0 fails and leaves the state
unchanged. -/
theorem C6_witness :
    (pay_installment 99 0 1
        { planStatus := .active
          number_of_installments := 2
          installments := [{ status := .paid, dueDate := 5, paidDate := some 1 },
            { status := .pending, dueDate := 6, paidDate := none }] }).2.installments[1]? =
      some { status := InstStatus.paid, dueDate := 6, paidDate := some 99 } ∧
    pay_installment 99 0 0
        { planStatus := .active
          number_of_installments := 2
          installments := [{ status := .paid, dueDate := 5, paidDate := some 1 },
            { status := .pending, dueDate := 6, paidDate := none }] } =
      (some .alreadyPaid,
        { planStatus := .active
          number_of_installments := 2
          installments := [{ status := .paid, dueDate := 5, paidDate := some 1 },
            { status := .pending, dueDate := 6, paidDate := none }] }) := by
  refine ⟨?_, ?_⟩
  · have h := (C6_pay_installment 99 0 1
      { planStatus := .active
        number_of_installments := 2
        installments := [{ status := .paid, dueDate := 5, paidDate := some 1 },
          { status := .pending, dueDate := 6, paidDate := none }] }
      { status := .pending, dueDate := 6, paidDate := none } (by decide)).2.2.2.2
    exact h _ (by decide)
  · exact (C6_pay_installment 99 0 0
      { planStatus := .active
        number_of_installments := 2
        installments := [{ status := .paid, dueDate := 5, paidDate := some 1 },
          { status := .pending, dueDate := 6, paidDate := none }] }
      { status := .paid, dueDate := 5, paidDate := some 1 } (by decide)).1 rfl

/-- Claim C7 (confirmed): the overdue sweep is idempotent — the first call
flips exactly the pending installments due strictly before today to late
and returns their number, and an immediately repeated call finds nothing,
returns 0 and changes nothing. -/
theorem C7_mark_all_overdue_idempotent :
    ∀ (today : ℤ) (insts : List Installment),
      (mark_all_overdue_installments today insts).1 =
        (insts.filter fun i => decide (i.status = .pending ∧ i.dueDate < today)).length ∧
      (mark_all_overdue_installments today
          (mark_all_overdue_installments today insts).2).1 = 0 ∧
      (mark_all_overdue_installments today
          (mark_all_overdue_installments today insts).2).2 =
        (mark_all_overdue_installments today insts).2 := by
  intro today insts
  have hnone : ∀ i ∈ (mark_all_overdue_installments today insts).2,
      ¬(i.status = .pending ∧ i.dueDate < today) := by
    intro i hi hcon
    simp only [mark_all_overdue_installments, List.mem_map] at hi
    obtain ⟨j, hj, rfl⟩ := hi
    by_cases hcond : j.status = .pending ∧ j.dueDate < today
    · rw [if_pos hcond] at hcon
      exact InstStatus.noConfusion hcon.1
    · rw [if_neg hcond] at hcon
      exact hcond hcon
  have hfil : (mark_all_overdue_installments today insts).2.filter
      (fun i => decide (i.status = .pending ∧ i.dueDate < today)) = [] :=
    List.filter_eq_nil_iff.mpr fun a ha => by simpa using hnone a ha
  refine ⟨rfl, ?_, ?_⟩
  · show ((mark_all_overdue_installments today insts).2.filter
      (fun i => decide (i.status = .pending ∧ i.dueDate < today))).length = 0
    rw [hfil]
    rfl
  · show (mark_all_overdue_installments today insts).2.map
      (fun i => if i.status = .pending ∧ i.dueDate < today
        then { i with status := .late } else i) =
      (mark_all_overdue_installments today insts).2
    have hmap : (mark_all_overdue_installments today insts).2.map
        (fun i => if i.status = .pending ∧ i.dueDate < today
          then { i with status := .late } else i) =
        (mark_all_overdue_installments today insts).2.map id :=
      List.map_congr_left fun i hi => if_neg (hnone i hi)
    rw [hmap, List.map_id]

/-- Claim C8 (confirmed): the reactive overdue check flips an installment
persisted as pending with due date strictly before today to late, leaves
every other installment untouched, is a no-op on its own output (the
targeted update cannot re-trigger it), and the save pipeline stores exactly
the checked row. -/
theorem C8_check_overdue_on_save :
    ∀ (today : ℤ) (i : Installment),
      (i.status = .pending ∧ i.dueDate < today →
        check_overdue_on_save today i = { i with status := .late }) ∧
      (¬(i.status = .pending ∧ i.dueDate < today) →
        check_overdue_on_save today i = i) ∧
      check_overdue_on_save today (check_overdue_on_save today i) =
        check_overdue_on_save today i ∧
      (∀ (idx : ℕ) (s : PlanState), idx < s.installments.length →
        (saveInstallment today idx i s).installments[idx]? =
          some (check_overdue_on_save today i)) := by
  intro today i
  have hflip : i.status = .pending ∧ i.dueDate < today →
      check_overdue_on_save today i = { i with status := .late } := by
    intro h
    unfold check_overdue_on_save is_overdue
    rw [if_pos ⟨h.1, h.1, h.2⟩]
  have hkeep : ¬(i.status = .pending ∧ i.dueDate < today) →
      check_overdue_on_save today i = i := by
    intro h
    unfold check_overdue_on_save is_overdue
    rw [if_neg]
    intro hcon
    exact h ⟨hcon.1, hcon.2.2⟩
  refine ⟨hflip, hkeep, ?_, ?_⟩
  · by_cases h : i.status = .pending ∧ i.dueDate < today
    · rw [hflip h]
      unfold check_overdue_on_save is_overdue
      rw [if_neg]
      intro hcon
      exact InstStatus.noConfusion hcon.1
    · rw [hkeep h, hkeep h]
  · intro idx s hlen
    unfold saveInstallment
    simp only
    rw [List.set_set]
    exact List.getElem?_set_self (by simpa using hlen)

/-- Claim C8, witness: with today = 10, a pending installment due on day 5
is flipped to late on save, and a paid one due on day 5 is left untouched. -/
theorem C8_witness :
    check_overdue_on_save 10 { status := .pending, dueDate := 5, paidDate := none } =
      { status := InstStatus.late, dueDate := 5, paidDate := none } ∧
    check_overdue_on_save 10 { status := .paid, dueDate := 5, paidDate := some 3 } =
      { status := InstStatus.paid, dueDate := 5, paidDate := some 3 } :=
  ⟨(C8_check_overdue_on_save 10 _).1 (by decide),
   (C8_check_overdue_on_save 10 _).2.1 (by decide)⟩

/-- Claim C10 (confirmed): the configured installment-count cap is 12 —
every creation request whose `number_of_installments` is below 1 or above
12 is rejected by the field validator with a validation error and the
ledger is left untouched, so no plan or installment row is persisted. -/
theorem C10_installment_cap :
    ∀ (today : Date) (r : CreateRequest) (ledger : List PlanRecord),
      r.number_of_installments < 1 ∨ 12 < r.number_of_installments →
      (create_plan today r ledger).1 ≠ none ∧
        (create_plan today r ledger).2 = ledger := by
  intro today r ledger hbad
  unfold create_plan createPlanValidate validate_number_of_installments
  by_cases h1 : r.interest_rate < 0 ∨ 100 < r.interest_rate
  · rw [if_pos h1]
    exact ⟨Option.noConfusion, rfl⟩
  · rw [if_neg h1]
    by_cases h2 : r.total_amount ≤ 0
    · rw [if_pos h2]
      exact ⟨Option.noConfusion, rfl⟩
    · rw [if_neg h2, if_pos hbad]
      exact ⟨Option.noConfusion, rfl⟩

/-- Claim C10, witness: a request for 13 installments with otherwise valid
fields is rejected and the empty ledger stays empty. -/
theorem C10_witness :
    (create_plan ⟨2025, 1, 1⟩
        { total_amount := 1200
          number_of_installments := 13
          start_date := ⟨2025, 2, 1⟩
          tenor_type := .month
          interest_rate := 0 } []).1 ≠ none ∧
    (create_plan ⟨2025, 1, 1⟩
        { total_amount := 1200
          number_of_installments := 13
          start_date := ⟨2025, 2, 1⟩
          tenor_type := .month
          interest_rate := 0 } []).2 = ([] : List PlanRecord) :=
  C10_installment_cap ⟨2025, 1, 1⟩ _ [] (by decide)

end BNPL
